import Mathlib

/-!
# Verification of the imap-codec response/sequence/quota grammar

A shallow embedding of the nom-based parsers in `src/parse/response.rs`,
`src/parse/sequence.rs` and `src/extensions/rfc9208.rs`, together with
theorems settling the specification's claims about them.

Input is modelled as `List Char` (the source parses `&[u8]`; all bytes that
the grammar accepts are 7-bit, so ASCII characters model them exactly).
A parser result mirrors nom's streaming `IResult`:
`done rem v` is `Ok((rem, v))`, `incomplete` is `Err(Incomplete)`, and
`error` is `Err(Error)` (the code never produces `Err(Failure)`).
-/

abbrev Inp := List Char

inductive PResult (α : Type) where
  | done (rem : Inp) (val : α)
  | incomplete
  | error
  deriving Repr, DecidableEq

abbrev Parser (α : Type) := Inp → PResult α

/-- Embeds `nom::combinator::map`. -/
def pmap (p : Parser α) (f : α → β) : Parser β := fun input =>
  match p input with
  | .done rem v => .done rem (f v)
  | .incomplete => .incomplete
  | .error => .error

/-- Sequencing of two parsers (nom `tuple` for the binary case). -/
def pbind (p : Parser α) (f : α → Parser β) : Parser β := fun input =>
  match p input with
  | .done rem v => f v rem
  | .incomplete => .incomplete
  | .error => .error

/-- Embeds `nom::sequence::tuple` for two parsers. -/
def pseq (p : Parser α) (q : Parser β) : Parser (α × β) :=
  pbind p (fun a => pmap q (fun b => (a, b)))

/-- Embeds `nom::sequence::preceded`. -/
def ppreceded (p : Parser α) (q : Parser β) : Parser β :=
  pbind p (fun _ => q)

/-- Embeds `nom::sequence::terminated`. -/
def pterminated (p : Parser α) (q : Parser β) : Parser α :=
  pbind p (fun a => pmap q (fun _ => a))

/-- Embeds `nom::sequence::delimited`. -/
def pdelimited (p : Parser α) (q : Parser β) (r : Parser γ) : Parser β :=
  ppreceded p (pterminated q r)

/-- Embeds `nom::branch::alt` for two alternatives: on `Error` try the second
alternative, `Incomplete` is returned immediately. -/
def palt (p q : Parser α) : Parser α := fun input =>
  match p input with
  | .error => q input
  | r => r

/-- Embeds `nom::combinator::opt`: `Error` becomes `None` consuming nothing,
`Incomplete` propagates. -/
def popt (p : Parser α) : Parser (Option α) := fun input =>
  match p input with
  | .done rem v => .done rem (some v)
  | .incomplete => .incomplete
  | .error => .done input none

/-- Embeds `nom::combinator::value`. -/
def pvalue (v : β) (p : Parser α) : Parser β := pmap p (fun _ => v)

/-- Embeds `nom::bytes::streaming::tag`: a byte-for-byte literal match; input that
runs out while still matching is `incomplete`. -/
def ptag : List Char → Parser Unit
  | [], input => .done input ()
  | _ :: _, [] => .incomplete
  | t :: ts, c :: cs => if c = t then ptag ts cs else .error

/-- Embeds `nom::bytes::complete::tag` (used for `(` and `)` in rfc9208.rs): input
that runs out is an error, not incomplete. -/
def ptagC : List Char → Parser Unit
  | [], input => .done input ()
  | _ :: _, [] => .error
  | t :: ts, c :: cs => if c = t then ptagC ts cs else .error

/-- ASCII lower-casing of one character. -/
def lowerChar (c : Char) : Char :=
  if 'A' ≤ c ∧ c ≤ 'Z' then Char.ofNat (c.toNat + 32) else c

/-- Embeds `nom::bytes::streaming::tag_no_case`: case-insensitive literal match,
returning the consumed input in its original casing. -/
def ptagNoCase : List Char → Parser (List Char)
  | [], input => .done input []
  | _ :: _, [] => .incomplete
  | t :: ts, c :: cs =>
    if lowerChar c = lowerChar t then
      match ptagNoCase ts cs with
      | .done rem raw => .done rem (c :: raw)
      | .incomplete => .incomplete
      | .error => .error
    else .error

/-- Embeds `nom::bytes::streaming::take_while1`: if every character of the input
matches (also when the input is empty) the token may continue, so the result
is `incomplete`; if the first character fails the predicate it is `error`. -/
def ptakeWhile1 (f : Char → Bool) : Parser (List Char) := fun input =>
  match input.dropWhile f with
  | [] => .incomplete
  | rest =>
    match input.takeWhile f with
    | [] => .error
    | taken => .done rest taken

/-- Embeds `nom::bytes::streaming::take_while`: like `take_while1` but an empty
match is fine. -/
def ptakeWhile0 (f : Char → Bool) : Parser (List Char) := fun input =>
  match input.dropWhile f with
  | [] => .incomplete
  | rest => .done rest (input.takeWhile f)

/-- The loop of nom's `separated_nonempty_list` / `separated_list1`: parse
`*(sep elem)` collecting the elements; a recoverable error of `sep`, or of
`elem` after `sep`, ends the loop (without consuming the separator);
`Incomplete` propagates.  The loop aborts if the separator consumed nothing
(nom's infinite-loop guard).  `fuel` bounds the recursion; every iteration
consumes at least one character, so `input.length + 1` is always enough. -/
def sepListTail (sep : Parser σ) (elem : Parser α) : Nat → Inp → PResult (List α)
  | 0, _ => .error
  | fuel + 1, input =>
    match sep input with
    | .error => .done input []
    | .incomplete => .incomplete
    | .done i1 _ =>
      if i1 = input then .error
      else
        match elem i1 with
        | .error => .done input []
        | .incomplete => .incomplete
        | .done i2 v =>
          match sepListTail sep elem fuel i2 with
          | .done rem vs => .done rem (v :: vs)
          | .incomplete => .incomplete
          | .error => .error

/-- nom's `separated_nonempty_list` (nom 5, response.rs / sequence.rs) and
`separated_list1` (rfc9208.rs): at least one element. -/
def sepList1 (sep : Parser σ) (elem : Parser α) : Parser (List α) := fun input =>
  match elem input with
  | .done i1 v =>
    match sepListTail sep elem (i1.length + 1) i1 with
    | .done rem vs => .done rem (v :: vs)
    | .incomplete => .incomplete
    | .error => .error
  | .incomplete => .incomplete
  | .error => .error

/-- nom's `separated_list0` (rfc9208.rs): a recoverable error on the first
element yields the empty list. -/
def sepList0 (sep : Parser σ) (elem : Parser α) : Parser (List α) := fun input =>
  match elem input with
  | .done i1 v =>
    match sepListTail sep elem (i1.length + 1) i1 with
    | .done rem vs => .done rem (v :: vs)
    | .incomplete => .incomplete
    | .error => .error
  | .incomplete => .incomplete
  | .error => .done input []

/-- Shorthand for writing concrete inputs. -/
def str (s : String) : List Char := s.toList

-- ----- lexical primitives (crate core; not included under src/) -----

def is_digit (c : Char) : Bool := '0' ≤ c ∧ c ≤ '9'

/-- Modelled from the spec: an atom character is any 7-bit character that is
not a control character and not one of the IMAP atom-specials
`( ) { SP % * " \ ]` (spec glossary "Atom", §4.2); the recognisers for
atoms live in the crate's core module, which is not under `src/`. -/
def is_atom_char (c : Char) : Bool :=
  0x20 < c.toNat && c.toNat < 0x7f &&
    !(c = '(' || c = ')' || c = '\x7b' || c = '%' || c = '*' || c = '"' || c = '\\' || c = ']')

/-- Modelled from the spec: a protocol-legal text character (§4.3, §6):
any 7-bit character except NUL, CR and LF. -/
def is_text_char (c : Char) : Bool :=
  0 < c.toNat && c.toNat ≤ 0x7f && c ≠ '\r' && c ≠ '\n'

/-- Modelled from the spec: `astring` characters are atom characters plus
the resp-special `]`. -/
def is_astring_char (c : Char) : Bool :=
  is_atom_char c || c = ']'

/-- Modelled from the spec (§4.2 lexical primitives): `atom` recognizes one
whitespace-delimited unquoted token, `1*ATOM-CHAR`. -/
def atom : Parser (List Char) := ptakeWhile1 is_atom_char

/-- Modelled from the spec (§4.1): numeric digits folded to their value. -/
def digitsToNat (ds : List Char) : Nat :=
  ds.foldl (fun acc c => 10 * acc + (c.toNat - '0'.toNat)) 0

/-- Modelled from the spec (§4.1, §8): `nz-number` rejects the literal "0"
and any string with a leading zero (grammar `digit-nz *DIGIT`); the token
is streamed, so a digit run that reaches the end of input is incomplete;
values are unsigned 64-bit. -/
def nz_number : Parser Nat := fun input =>
  match input with
  | [] => .incomplete
  | c :: _ =>
    if ¬ is_digit c then .error
    else if c = '0' then .error
    else
      match input.dropWhile is_digit with
      | [] => .incomplete
      | rest =>
        let v := digitsToNat (input.takeWhile is_digit)
        if v < 2 ^ 64 then .done rest v else .error

/-- Modelled from the spec (§4.1): `number64` accepts zero and values up to
the 64-bit unsigned range, rejecting non-digit characters and overflow. -/
def number64 : Parser Nat := fun input =>
  match input with
  | [] => .incomplete
  | c :: _ =>
    if ¬ is_digit c then .error
    else
      match input.dropWhile is_digit with
      | [] => .incomplete
      | rest =>
        let v := digitsToNat (input.takeWhile is_digit)
        if v < 2 ^ 64 then .done rest v else .error

/-- Embeds `abnf_core::streaming::SP`. -/
def SP : Parser Unit := ptag (str " ")

/-- Embeds `abnf_core::streaming::CRLF_relaxed`: the canonical two-byte terminator
or a bare line feed. -/
def CRLF : Parser Unit := palt (ptag (str "\r\n")) (ptag (str "\n"))

-- ----- sequence-set grammar (src/parse/sequence.rs) -----

inductive SeqNo where
  | Value (n : Nat)
  | Unlimited
  deriving Repr, DecidableEq

inductive Sequence where
  | Single (n : SeqNo)
  | Range (from_ : SeqNo) (to_ : SeqNo)
  deriving Repr, DecidableEq

/-- Embeds `seq_number`: `nz-number / "*"`. -/
def seq_number : Parser SeqNo :=
  palt (pmap nz_number SeqNo.Value) (pvalue SeqNo.Unlimited (ptag (str "*")))

/-- Embeds `seq_range`: `seq-number ":" seq-number` (the source uses `tag_no_case`
for the colon). -/
def seq_range : Parser (SeqNo × SeqNo) :=
  pmap (pseq seq_number (pseq (ptagNoCase (str ":")) seq_number))
    (fun (from_, _, to_) => (from_, to_))

/-- Embeds `sequence_set`: comma-separated non-empty list, trying `seq_range`
before `seq_number` at every position. -/
def sequence_set : Parser (List Sequence) :=
  sepList1 (ptag (str ","))
    (palt (pmap seq_range (fun (f, t) => Sequence.Range f t))
          (pmap seq_number Sequence.Single))

-- ----- quota extension data model (imap_types::extensions::rfc9208; the
-- ----- types crate is not under src/) -----

/-- Modelled from the spec (§3 Resource): closed variants plus `Other`
carrying the original-cased raw token. -/
inductive Resource where
  | Storage
  | Message
  | Mailbox
  | AnnotationStorage
  | Other (raw : List Char)
  deriving Repr, DecidableEq

/-- ASCII lower-casing of a token. -/
def asciiLower (t : List Char) : List Char := t.map lowerChar

/-- Modelled from the spec (§3 Resource): `Resource::from` classifies the
already-consumed atom case-insensitively against the closed set, falling
back to `Other` with the original casing. -/
def Resource.fromAtom (t : List Char) : Resource :=
  if asciiLower t = str "storage" then .Storage
  else if asciiLower t = str "message" then .Message
  else if asciiLower t = str "mailbox" then .Mailbox
  else if asciiLower t = str "annotation-storage" then .AnnotationStorage
  else .Other t

/-- Embeds `QuotaGet { resource, usage, limit }`. -/
structure QuotaGet where
  resource : Resource
  usage : Nat
  limit : Nat
  deriving Repr, DecidableEq

/-- Embeds `QuotaSet { resource, limit }`. -/
structure QuotaSet where
  resource : Resource
  limit : Nat
  deriving Repr, DecidableEq

/-- Modelled from the spec (§3): `NonEmptyVec::try_from` fails exactly on
the empty list (the vector wrapper is represented by the list itself). -/
def nonEmptyVecTryFrom (l : List α) : Option (List α) :=
  match l with
  | [] => none
  | _ => some l

-- ----- capability data model (imap_types; not under src/) -----

/-- Modelled from the spec (§3 Capability): closed variants plus
`Other(raw-token)`; `Other` preserves the original casing. -/
inductive Capability where
  | Imap4Rev1
  | StartTls
  | Idle
  | MailboxReferrals
  | LoginReferrals
  | SaslIr
  | Enable
  | Auth (mechanism : List Char)
  | QuotaSet
  | QuotaRes (resource : Resource)
  | Quota
  | Other (raw : List Char)
  deriving Repr, DecidableEq

-- ----- quota extension grammar (src/extensions/rfc9208.rs) -----

/-- Modelled from the spec (§4.1 lexical primitives): `astring` as
`1*ASTRING-CHAR`; the quoted/literal string forms live in the core module
that is not under `src/` and are not needed by any claim. -/
def astring : Parser (List Char) := ptakeWhile1 is_astring_char

/-- Embeds `quota_root_name = astring`. -/
def quota_root_name : Parser (List Char) := astring

/-- Embeds `resource_name`: one atom, classified by `Resource::from`. -/
def resource_name : Parser Resource := pmap atom Resource.fromAtom

/-- Embeds `quota_resource = resource-name SP resource-usage SP resource-limit`. -/
def quota_resource : Parser QuotaGet :=
  pmap (pseq resource_name (pseq SP (pseq number64 (pseq SP number64))))
    (fun (resource, _, usage, _, limit) => QuotaGet.mk resource usage limit)

/-- Embeds `setquota_resource = resource-name SP resource-limit`. -/
def setquota_resource : Parser QuotaSet :=
  pmap (pseq resource_name (pseq SP number64))
    (fun (resource, _, limit) => QuotaSet.mk resource limit)

abbrev QuotaGetList := List QuotaGet
abbrev QuotaSetList := List QuotaSet
abbrev RawToken := List Char

/-- The untagged-data sum type (`imap_types::response::Data`, not under
src/): only the variants produced by the embedded parsers are modelled. -/
inductive Data where
  | Capability (caps : List Capability)
  | Quota (root : RawToken) (quotas : QuotaGetList)
  deriving Repr, DecidableEq

/-- The command sum type (`imap_types::command::CommandBody`, not under
src/): only the variant produced by the embedded parser is modelled. -/
inductive CommandBody where
  | SetQuota (root : RawToken) (quotas : QuotaSetList)
  deriving Repr, DecidableEq

/-- Embeds `quota_response = "QUOTA" SP quota-root-name SP "(" quota-resource
*(SP quota-resource) ")"`; the parentheses use nom's *complete* `tag`.
The source converts the `separated_list1` result into a `NonEmptyVec` with
`NonEmptyVec::try_from(..).unwrap()`; the value carries the plain list and
the nonemptiness is proved (`quota_response_never_panics`). -/
def quota_response : Parser Data :=
  pmap
    (pseq (ptagNoCase (str "QUOTA "))
      (pseq quota_root_name
        (pseq SP
          (pdelimited (ptagC (str "(")) (sepList1 SP quota_resource) (ptagC (str ")"))))))
    (fun (_, root, _, quotas) => Data.Quota root quotas)

/-- Embeds `setquota = "SETQUOTA" SP quota-root-name SP "(" [setquota-resource
*(SP setquota-resource)] ")"`; the parentheses use nom's *complete* `tag`. -/
def setquota : Parser CommandBody :=
  pmap
    (pseq (ptagNoCase (str "SETQUOTA "))
      (pseq quota_root_name
        (pseq SP
          (pdelimited (ptagC (str "(")) (sepList0 SP setquota_resource) (ptagC (str ")"))))))
    (fun (_, root, _, quotas) => CommandBody.SetQuota root quotas)

/-- Embeds `capa_quota_res = "QUOTA=RES-" resource-name`. -/
def capa_quota_res : Parser Capability :=
  pmap (ppreceded (ptagNoCase (str "QUOTA=RES-")) resource_name) Capability.QuotaRes

-- ----- response grammar data model (imap_types; not under src/) -----

/-- Modelled from the spec (§3 Code / §4.3): a permanent-flag token, either
the wildcard `\*` or a (possibly `\`-prefixed) flag atom; the flag grammar
lives outside src/ and no claim depends on its internals. -/
inductive FlagPerm where
  | Asterisk
  | Flag (raw : List Char)
  deriving Repr, DecidableEq

/-- Modelled from the spec (§4.3): `flag-perm = flag / "\*"`. -/
def flag_perm : Parser FlagPerm :=
  palt (pvalue FlagPerm.Asterisk (ptag (str "\\*")))
    (pmap (palt (pmap (ppreceded (ptag (str "\\")) atom) (fun a => '\\' :: a)) atom)
      FlagPerm.Flag)

/-- Modelled from the spec (§3 Code BadCharset): a charset name token; the
quoted form lives outside src/ and no claim depends on it. -/
def charset : Parser (List Char) := atom

/-- Embeds `imap_types::response::Code` (not under src/), as described by the
spec's data model (§3 Code). -/
inductive Code where
  | Alert
  | BadCharset (charsets : List RawToken)
  | Capability (caps : List Capability)
  | Parse
  | PermanentFlags (flags : List FlagPerm)
  | ReadOnly
  | ReadWrite
  | TryCreate
  | UidNext (n : Nat)
  | UidValidity (n : Nat)
  | Unseen (n : Nat)
  | Other (a : RawToken) (params : Option RawToken)
  deriving Repr, DecidableEq

-- ----- capability grammar (src/parse/response.rs) -----

/-- Modelled from the spec (§1, §4.2): `auth-type` is an opaque mechanism
name, one atom. -/
def auth_type : Parser (List Char) := atom

/-- Embeds `capability = ("AUTH=" auth-type) / atom`, the atom being classified by
post-hoc case-folded string matching. -/
def capability : Parser Capability :=
  palt
    (pmap (pseq (ptagNoCase (str "AUTH=")) auth_type) (fun (_, m) => Capability.Auth m))
    (pmap atom (fun a =>
      let low := asciiLower a
      if low = str "imap4rev1" then .Imap4Rev1
      else if low = str "starttls" then .StartTls
      else if low = str "idle" then .Idle
      else if low = str "mailbox-referrals" then .MailboxReferrals
      else if low = str "login-referrals" then .LoginReferrals
      else if low = str "sasl-ir" then .SaslIr
      else if low = str "enable" then .Enable
      else .Other a))

/-- The `parser` local of `capability_data`:
`"CAPABILITY" SP capability *(SP capability)`. -/
def capability_data_list : Parser (List Capability) :=
  pmap (pseq (ptagNoCase (str "CAPABILITY")) (pseq SP (sepList1 SP capability)))
    (fun (_, _, caps) => caps)

/-- Embeds `capability_data`: after the list is recognized, its containing the
baseline token `Imap4Rev1` is verified; a missing baseline is a recoverable
parse error (`nom::Err::Error`, kind `Verify`). -/
def capability_data : Parser (List Capability) := fun input =>
  match capability_data_list input with
  | .done rem caps =>
    if Capability.Imap4Rev1 ∈ caps then .done rem caps else .error
  | .incomplete => .incomplete
  | .error => .error

-- ----- response-code & response-text grammar (src/parse/response.rs) -----

/-- Embeds `resp_text_code`: ordered alternation over the closed code set with the
`atom [SP 1*<text-char except DQUOTE>]` catch-all last.  (The source's
grammar comment says "except `]`", its predicate says `!= b'"'`.) -/
def resp_text_code : Parser Code :=
  palt (pvalue Code.Alert (ptagNoCase (str "ALERT")))
  (palt
    (pmap
      (pseq (ptagNoCase (str "BADCHARSET"))
        (popt (ppreceded SP
          (pdelimited (ptag (str "(")) (sepList1 SP charset) (ptag (str ")"))))))
      (fun (_, maybe) => Code.BadCharset (maybe.getD [])))
  (palt (pmap capability_data Code.Capability)
  (palt (pvalue Code.Parse (ptagNoCase (str "PARSE")))
  (palt
    (pmap
      (pseq (ptagNoCase (str "PERMANENTFLAGS"))
        (pseq SP
          (pdelimited (ptag (str "("))
            (pmap (popt (sepList1 SP flag_perm)) (fun maybe => maybe.getD []))
            (ptag (str ")")))))
      (fun (_, _, flags) => Code.PermanentFlags flags))
  (palt (pvalue Code.ReadOnly (ptagNoCase (str "READ-ONLY")))
  (palt (pvalue Code.ReadWrite (ptagNoCase (str "READ-WRITE")))
  (palt (pvalue Code.TryCreate (ptagNoCase (str "TRYCREATE")))
  (palt (pmap (pseq (ptagNoCase (str "UIDNEXT")) (pseq SP nz_number))
          (fun (_, _, n) => Code.UidNext n))
  (palt (pmap (pseq (ptagNoCase (str "UIDVALIDITY")) (pseq SP nz_number))
          (fun (_, _, n) => Code.UidValidity n))
  (palt (pmap (pseq (ptagNoCase (str "UNSEEN")) (pseq SP nz_number))
          (fun (_, _, n) => Code.Unseen n))
    (pmap
      (pseq atom
        (popt (ppreceded SP
          (ptakeWhile1 (fun c => is_text_char c && c ≠ '"')))))
      (fun (a, params) => Code.Other a params))))))))))))

/-- Modelled from the spec (§4.3): `text` is the mandatory free text,
`1*TEXT-CHAR`. -/
def text : Parser (List Char) := ptakeWhile1 is_text_char

/-- Embeds `resp_text = ["[" resp-text-code "]" SP] text`. -/
def resp_text : Parser (Option Code × List Char) :=
  pseq (popt (pterminated (pdelimited (ptag (str "[")) resp_text_code (ptag (str "]"))) SP))
    text

-- ----- status & data grammar (src/parse/response.rs) -----

/-- Embeds `imap_types::response::Status` (not under src/), per the spec's data
model (§3 Status). -/
inductive Status where
  | Ok (tag : Option RawToken) (code : Option Code) (text : RawToken)
  | No (tag : Option RawToken) (code : Option Code) (text : RawToken)
  | Bad (tag : Option RawToken) (code : Option Code) (text : RawToken)
  | PreAuth (code : Option Code) (text : RawToken)
  | Bye (code : Option Code) (text : RawToken)
  deriving Repr, DecidableEq

/-- Embeds `imap_types::response::Continuation` (not under src/), per §3. -/
inductive Continuation where
  | Basic (code : Option Code) (text : RawToken)
  | Base64 (data : RawToken)
  deriving Repr, DecidableEq

/-- Embeds `imap_types::response::Response` (not under src/), per §3. -/
inductive Response where
  | Status (s : Status)
  | Data (d : Data)
  | Continuation (c : Continuation)
  deriving Repr, DecidableEq

/-- Embeds `resp_cond_state = ("OK" / "NO" / "BAD") SP resp-text`; the matched
keyword is returned in its original casing. -/
def resp_cond_state : Parser (RawToken × Option Code × RawToken) :=
  pmap
    (pseq (palt (ptagNoCase (str "OK")) (palt (ptagNoCase (str "NO")) (ptagNoCase (str "BAD"))))
      (pseq SP resp_text))
    (fun (raw, _, code, t) => (raw, code, t))

/-- Embeds `resp_cond_bye = "BYE" SP resp-text`. -/
def resp_cond_bye : Parser (Option Code × RawToken) :=
  pmap (pseq (ptagNoCase (str "BYE")) (pseq SP resp_text)) (fun (_, _, rt) => rt)

/-- Modelled from the spec (§2, §6): the base64 payload of a continuation
request is opaque here; base64 text with optional `=` padding. -/
def is_base64_char (c : Char) : Bool :=
  ('A' ≤ c && c ≤ 'Z') || ('a' ≤ c && c ≤ 'z') || is_digit c || c = '+' || c = '/'

/-- Modelled from the spec (§3 Continuation): opaque base64 payload. -/
def base64 : Parser (List Char) :=
  pmap (pseq (ptakeWhile0 is_base64_char) (popt (palt (ptag (str "==")) (ptag (str "=")))))
    (fun (s, _) => s)

/-- Embeds `continue_req = "+" SP (resp-text / base64) CRLF`. -/
def continue_req : Parser Continuation :=
  pmap
    (pseq (ptag (str "+"))
      (pseq SP
        (pseq
          (palt (pmap resp_text (fun (code, t) => Continuation.Basic code t))
            (pmap base64 Continuation.Base64))
          CRLF)))
    (fun (_, _, c, _) => c)

/-- The `match raw_status.to_lowercase()` in `response_data`; the source's
`unreachable!()` arm is modelled by an arbitrary value (the keyword always
comes from the OK/NO/BAD alternation). -/
def classifyUntaggedState (raw : RawToken) (code : Option Code) (t : RawToken) : Response :=
  if asciiLower raw = str "ok" then .Status (.Ok none code t)
  else if asciiLower raw = str "no" then .Status (.No none code t)
  else if asciiLower raw = str "bad" then .Status (.Bad none code t)
  else .Status (.Bad none code t)

/-- Modelled from the spec (§3): mailbox-data is external to this excerpt;
its recognizer is not under src/ and no claim depends on it, so it is
modelled as recognizing nothing. -/
def mailbox_data : Parser Data := fun _ => .error

/-- Modelled from the spec (§3): message-data is external to this excerpt;
its recognizer is not under src/ and no claim depends on it, so it is
modelled as recognizing nothing. -/
def message_data : Parser Data := fun _ => .error

/-- Embeds `response_data = "*" SP (resp-cond-state / resp-cond-bye /
mailbox-data / message-data / capability-data) CRLF`. -/
def response_data : Parser Response :=
  pmap
    (pseq (ptag (str "*"))
      (pseq SP
        (pseq
          (palt (pmap resp_cond_state (fun (raw, code, t) => classifyUntaggedState raw code t))
          (palt (pmap resp_cond_bye (fun (code, t) => Response.Status (Status.Bye code t)))
          (palt (pmap mailbox_data Response.Data)
          (palt (pmap message_data Response.Data)
            (pmap capability_data (fun caps => Response.Data (Data.Capability caps)))))))
          CRLF)))
    (fun (_, _, r, _) => r)

/-- Modelled from the spec (§3 Status, glossary "Tagged response"): the
correlation-tag token, `1*<ASTRING-CHAR except "+">`; the recognizer lives
in the core module, not under src/. -/
def tag_imap : Parser (List Char) :=
  ptakeWhile1 (fun c => is_astring_char c && c ≠ '+')

/-- The `match raw_status.to_lowercase()` in `response_tagged`; the
`unreachable!()` arm is modelled by an arbitrary value. -/
def classifyTaggedState (tg : RawToken) (raw : RawToken) (code : Option Code) (t : RawToken) :
    Status :=
  if asciiLower raw = str "ok" then .Ok (some tg) code t
  else if asciiLower raw = str "no" then .No (some tg) code t
  else if asciiLower raw = str "bad" then .Bad (some tg) code t
  else .Bad (some tg) code t

/-- Embeds `response_tagged = tag SP resp-cond-state CRLF`. -/
def response_tagged : Parser Status :=
  pmap (pseq tag_imap (pseq SP (pseq resp_cond_state CRLF)))
    (fun (tg, _, (raw, code, t), _) => classifyTaggedState tg raw code t)

/-- Embeds `response_fatal = "*" SP resp-cond-bye CRLF`. -/
def response_fatal : Parser Status :=
  pmap (pseq (ptag (str "*")) (pseq SP (pseq resp_cond_bye CRLF)))
    (fun (_, _, (code, t), _) => Status.Bye code t)

/-- Embeds `response_done = response-tagged / response-fatal`. -/
def response_done : Parser Status :=
  palt response_tagged response_fatal

/-- Embeds `response`: the top-level dispatcher, trying continuation-request
syntax, then untagged-data syntax, then completion-status syntax. -/
def response : Parser Response :=
  palt (pmap continue_req Response.Continuation)
    (palt response_data (pmap response_done Response.Status))

-- ----- general lemmas about the combinators -----

theorem pmap_done {p : Parser α} {f : α → β} {input rem v} :
    pmap p f input = .done rem v ↔ ∃ a, p input = .done rem a ∧ v = f a := by
  unfold pmap
  cases h : p input <;> simp
  constructor
  · rintro ⟨h1, h2⟩
    exact ⟨_, ⟨h1, rfl⟩, h2.symm⟩
  · rintro ⟨a, ⟨h1, rfl⟩, h2⟩
    exact ⟨h1, h2.symm⟩

theorem pbind_done {p : Parser α} {f : α → Parser β} {input rem v} :
    pbind p f input = .done rem v ↔
      ∃ mid a, p input = .done mid a ∧ f a mid = .done rem v := by
  unfold pbind
  cases h : p input <;> simp
  constructor
  · intro h1
    exact ⟨_, _, ⟨rfl, rfl⟩, h1⟩
  · rintro ⟨mid, a, ⟨rfl, rfl⟩, h1⟩
    exact h1

theorem pseq_done {p : Parser α} {q : Parser β} {input rem v} :
    pseq p q input = .done rem v ↔
      ∃ mid a b, p input = .done mid a ∧ q mid = .done rem b ∧ v = (a, b) := by
  unfold pseq
  rw [pbind_done]
  constructor
  · rintro ⟨mid, a, ha, hb⟩
    rw [pmap_done] at hb
    obtain ⟨b, hb, rfl⟩ := hb
    exact ⟨mid, a, b, ha, hb, rfl⟩
  · rintro ⟨mid, a, b, ha, hb, rfl⟩
    exact ⟨mid, a, ha, pmap_done.mpr ⟨b, hb, rfl⟩⟩

theorem palt_done {p q : Parser α} {input rem v} :
    palt p q input = .done rem v ↔
      p input = .done rem v ∨ (p input = .error ∧ q input = .done rem v) := by
  unfold palt
  cases h : p input <;> simp

/-- A successful `sepList1` always returns at least one element. -/
theorem sepList1_done_ne_nil {sep : Parser σ} {elem : Parser α} {input rem l} :
    sepList1 sep elem input = .done rem l → l ≠ [] := by
  intro h
  unfold sepList1 at h
  split at h
  · split at h
    · cases h
      simp
    · simp at h
    · simp at h
  · simp at h
  · simp at h

-- ----- C4 / C8: sequence-set grammar -----

/-- C4 (counterexample): on the exact byte sequences "1:*,5" and "*:10" the
streaming sequence-set parser reports incomplete input — the final digit
run could still continue, so the set is not yet complete — instead of the
parsed list the claim states. -/
theorem sequence_set_exact_input_incomplete :
    sequence_set (str "1:*,5") = .incomplete
  ∧ sequence_set (str "1:*,5")
      ≠ .done [] [Sequence.Range (SeqNo.Value 1) SeqNo.Unlimited, Sequence.Single (SeqNo.Value 5)]
  ∧ sequence_set (str "*:10") = .incomplete
  ∧ sequence_set (str "*:10") ≠ .done [] [Sequence.Range SeqNo.Unlimited (SeqNo.Value 10)] := by
  decide

/-- C4 (amended): once the set is delimited by a byte that cannot extend it
(here `?`), the parser tries the range alternative before the single-number
alternative at every list position and performs no normalization or
coalescing: "1:*,5?" parses to [Range(Value 1, Unlimited), Single(Value 5)]
and "*:10?" to Range(Unlimited, Value 10); operand order is preserved
exactly as written ("4:2?" and "2:4?" stay distinct). -/
theorem sequence_set_order_preserved :
    sequence_set (str "1:*,5?") = .done (str "?")
      [Sequence.Range (SeqNo.Value 1) SeqNo.Unlimited, Sequence.Single (SeqNo.Value 5)]
  ∧ sequence_set (str "*:10?") = .done (str "?") [Sequence.Range SeqNo.Unlimited (SeqNo.Value 10)]
  ∧ seq_range (str "*:10?") = .done (str "?") (SeqNo.Unlimited, SeqNo.Value 10)
  ∧ sequence_set (str "4:2?") = .done (str "?") [Sequence.Range (SeqNo.Value 4) (SeqNo.Value 2)]
  ∧ sequence_set (str "2:4?") = .done (str "?") [Sequence.Range (SeqNo.Value 2) (SeqNo.Value 4)] := by
  decide

/-- C8: a sequence number denoting the value 0 is a terminal grammar error:
`seq_number` rejects every input starting with the digit 0, so "0" as a
single number and "0:1" as a range are invalid sequence sets (errors, not
incomplete input). -/
theorem seq_number_rejects_zero :
    (∀ rest : Inp, seq_number ('0' :: rest) = .error)
  ∧ sequence_set (str "0") = .error
  ∧ sequence_set (str "0:1") = .error := by
  refine ⟨fun rest => ?_, by decide, by decide⟩
  have hd : is_digit '0' = true := by decide
  have hs : str "*" = ['*'] := rfl
  simp [seq_number, palt, pmap, pvalue, nz_number, ptag, hs, hd]

-- ----- C6: resource-name classification -----

theorem dropWhile_append_all {f : Char → Bool} :
    ∀ (t rest : List Char), (∀ c ∈ t, f c = true) →
      List.dropWhile f (t ++ rest) = List.dropWhile f rest := by
  intro t
  induction t with
  | nil => simp
  | cons c cs ih =>
    intro rest h
    have hc : f c = true := h c (by simp)
    simp only [List.cons_append, List.dropWhile_cons, hc, if_true]
    exact ih rest (fun x hx => h x (by simp [hx]))

theorem takeWhile_append_all {f : Char → Bool} :
    ∀ (t rest : List Char), (∀ c ∈ t, f c = true) →
      List.takeWhile f (t ++ rest) = t ++ List.takeWhile f rest := by
  intro t
  induction t with
  | nil => simp
  | cons c cs ih =>
    intro rest h
    have hc : f c = true := h c (by simp)
    simp only [List.cons_append, List.takeWhile_cons, hc, if_true]
    rw [ih rest (fun x hx => h x (by simp [hx]))]

/-- Embeds `ptakeWhile1` on a token of matching characters followed by a
non-matching delimiter consumes exactly the token. -/
theorem ptakeWhile1_token {f : Char → Bool} {t : List Char} {d : Char} {ds : Inp}
    (ht : t ≠ []) (hall : ∀ c ∈ t, f c = true) (hd : f d = false) :
    ptakeWhile1 f (t ++ d :: ds) = .done (d :: ds) t := by
  have hdrop : (t ++ d :: ds).dropWhile f = d :: ds := by
    rw [dropWhile_append_all t (d :: ds) hall]
    simp [List.dropWhile_cons, hd]
  have htake : (t ++ d :: ds).takeWhile f = t := by
    rw [takeWhile_append_all t (d :: ds) hall]
    simp [List.takeWhile_cons, hd]
  unfold ptakeWhile1
  rw [hdrop, htake]
  cases t with
  | nil => exact absurd rfl ht
  | cons c cs => rfl

/-- C6: `resource_name` consumes exactly one atom (the following separator
stays in the remainder) and classifies its case-folded text against the
closed set, `Other` keeping the original casing only for tokens matching no
closed variant; e.g. "anNotatIon-stoRageX " yields
Other("anNotatIon-stoRageX") with remainder " ". -/
theorem resource_name_classification :
    (∀ (t : List Char) (d : Char) (ds : Inp), t ≠ [] →
        (∀ c ∈ t, is_atom_char c = true) → is_atom_char d = false →
        resource_name (t ++ d :: ds) = .done (d :: ds) (Resource.fromAtom t))
  ∧ (∀ t, asciiLower t = str "storage" → Resource.fromAtom t = .Storage)
  ∧ (∀ t, asciiLower t = str "message" → Resource.fromAtom t = .Message)
  ∧ (∀ t, asciiLower t = str "mailbox" → Resource.fromAtom t = .Mailbox)
  ∧ (∀ t, asciiLower t = str "annotation-storage" → Resource.fromAtom t = .AnnotationStorage)
  ∧ (∀ t, asciiLower t ≠ str "storage" → asciiLower t ≠ str "message" →
        asciiLower t ≠ str "mailbox" → asciiLower t ≠ str "annotation-storage" →
        Resource.fromAtom t = .Other t)
  ∧ resource_name (str "anNotatIon-stoRageX ")
      = .done (str " ") (.Other (str "anNotatIon-stoRageX"))
  ∧ resource_name (str "anNotatIon-stoRagee ")
      = .done (str " ") (.Other (str "anNotatIon-stoRagee"))
  ∧ resource_name (str "stOragE ") = .done (str " ") .Storage
  ∧ resource_name (str "mesSaGe ") = .done (str " ") .Message
  ∧ resource_name (str "maIlbOx ") = .done (str " ") .Mailbox
  ∧ resource_name (str "anNotatIon-stoRage ") = .done (str " ") .AnnotationStorage := by
  refine ⟨fun t d ds ht hall hd => ?_, fun t h => ?_, fun t h => ?_, fun t h => ?_,
    fun t h => ?_, fun t h1 h2 h3 h4 => ?_,
    by decide, by decide, by decide, by decide, by decide, by decide⟩
  · unfold resource_name atom
    rw [pmap_done.mpr ⟨t, ptakeWhile1_token ht hall hd, rfl⟩]
  · unfold Resource.fromAtom
    rw [h, if_pos (by decide)]
  · unfold Resource.fromAtom
    rw [h, if_neg (by decide), if_pos (by decide)]
  · unfold Resource.fromAtom
    rw [h, if_neg (by decide), if_neg (by decide), if_pos (by decide)]
  · unfold Resource.fromAtom
    rw [h, if_neg (by decide), if_neg (by decide), if_neg (by decide), if_pos (by decide)]
  · unfold Resource.fromAtom
    rw [if_neg h1, if_neg h2, if_neg h3, if_neg h4]

/-- Instantiation of the general part of `resource_name_classification` at
a concrete token and delimiter. -/
theorem resource_name_classification_witness :
    resource_name (str "xyz" ++ ' ' :: []) = .done (' ' :: []) (Resource.fromAtom (str "xyz")) :=
  resource_name_classification.1 (str "xyz") ' ' [] (by decide) (by decide) (by decide)

-- ----- C5 / C10: quota-list arities -----

theorem pseq_done_parts {p : Parser α} {q : Parser β} {input rem} {v : α × β} :
    pseq p q input = .done rem v → ∃ mid, p input = .done mid v.1 ∧ q mid = .done rem v.2 := by
  intro h
  rw [pseq_done] at h
  obtain ⟨mid, a, b, ha, hb, rfl⟩ := h
  exact ⟨mid, ha, hb⟩

theorem pdelimited_done_mid {p : Parser α} {q : Parser β} {r : Parser γ} {input rem v} :
    pdelimited p q r input = .done rem v → ∃ i1 i2, q i1 = .done i2 v := by
  intro h
  unfold pdelimited ppreceded pterminated at h
  rw [pbind_done] at h
  obtain ⟨i1, a, hp, h2⟩ := h
  rw [pbind_done] at h2
  obtain ⟨i2, b, hq, h3⟩ := h2
  rw [pmap_done] at h3
  obtain ⟨c, hr, rfl⟩ := h3
  exact ⟨i1, i2, hq⟩

/-- Whenever `quota_response` succeeds, its resource list came from
`separated_list1` and is therefore non-empty. -/
theorem quota_response_quotas_ne_nil {input rem root quotas} :
    quota_response input = .done rem (Data.Quota root quotas) → quotas ≠ [] := by
  intro h
  unfold quota_response at h
  rw [pmap_done] at h
  obtain ⟨a, hp, hv⟩ := h
  obtain ⟨a1, a2, a3, a4⟩ := a
  simp only at hv
  injection hv with hv1 hv2
  subst hv1
  subst hv2
  obtain ⟨m1, h1, h2⟩ := pseq_done_parts hp
  obtain ⟨m2, h3, h4⟩ := pseq_done_parts h2
  obtain ⟨m3, h5, h6⟩ := pseq_done_parts h4
  obtain ⟨i1, i2, hq⟩ := pdelimited_done_mid h6
  exact sepList1_done_ne_nil hq

/-- C5: a QUOTA response's quota-list must contain at least one resource
triple ("QUOTA A ()" is an error, and every successful parse carries a
non-empty list), whereas the SETQUOTA list permits zero entries:
"SETQUOTA A ()" succeeds with an empty pair list. -/
theorem quota_list_arities :
    quota_response (str "QUOTA A ()") = .error
  ∧ setquota (str "SETQUOTA A ()") = .done [] (CommandBody.SetQuota (str "A") [])
  ∧ quota_response (str "QUOTA A (STORAGE 10 512)")
      = .done [] (Data.Quota (str "A") [QuotaGet.mk Resource.Storage 10 512])
  ∧ (∀ input rem root quotas,
      quota_response input = .done rem (Data.Quota root quotas) → quotas ≠ []) := by
  refine ⟨by decide, by decide, by decide, fun input rem root quotas h => ?_⟩
  exact quota_response_quotas_ne_nil h

/-- Instantiation of the general part of `quota_list_arities` at a concrete
successful parse. -/
theorem quota_list_arities_witness :
    ([QuotaGet.mk Resource.Storage 10 512] : List QuotaGet) ≠ [] :=
  quota_list_arities.2.2.2 (str "QUOTA A (STORAGE 10 512)") [] (str "A")
    [QuotaGet.mk Resource.Storage 10 512] (by decide)

/-- C10: on every input on which `quota_response` succeeds the parsed
resource list is non-empty, so the source's
`NonEmptyVec::try_from(quotas).unwrap()` never panics. -/
theorem quota_response_never_panics :
    ∀ input rem root quotas,
      quota_response input = .done rem (Data.Quota root quotas) →
        quotas ≠ [] ∧ nonEmptyVecTryFrom quotas = some quotas := by
  intro input rem root quotas h
  have hne := quota_response_quotas_ne_nil h
  refine ⟨hne, ?_⟩
  unfold nonEmptyVecTryFrom
  cases quotas with
  | nil => exact absurd rfl hne
  | cons q qs => rfl

/-- Instantiation of `quota_response_never_panics` at a concrete successful
parse. -/
theorem quota_response_never_panics_witness :
    ([QuotaGet.mk Resource.Storage 10 512] : List QuotaGet) ≠ []
  ∧ nonEmptyVecTryFrom [QuotaGet.mk Resource.Storage 10 512]
      = some [QuotaGet.mk Resource.Storage 10 512] :=
  quota_response_never_panics (str "QUOTA A (STORAGE 10 512)") [] (str "A")
    [QuotaGet.mk Resource.Storage 10 512] (by decide)

-- ----- C1: capability-data baseline requirement -----

/-- C1: `capability_data` verifies the baseline token only after the whole
capability list has been recognized: when the underlying list parse is
complete, a list containing Imap4Rev1 in any position is returned whole and
a list missing it is rejected as invalid (`error`) — never as incomplete.
Concrete complete lines illustrate both outcomes and the any-position
aspect. -/
theorem capability_data_baseline :
    (∀ input rem caps, capability_data_list input = .done rem caps →
        (Capability.Imap4Rev1 ∈ caps → capability_data input = .done rem caps)
      ∧ (Capability.Imap4Rev1 ∉ caps → capability_data input = .error))
  ∧ capability_data (str "CAPABILITY FOO BAR\r\n") = .error
  ∧ capability_data (str "CAPABILITY FOO IMAP4REV1 BAR\r\n")
      = .done (str "\r\n")
          [Capability.Other (str "FOO"), Capability.Imap4Rev1, Capability.Other (str "BAR")]
  ∧ capability_data (str "CAPABILITY IMAP4rev1 FOO\r\n")
      = .done (str "\r\n") [Capability.Imap4Rev1, Capability.Other (str "FOO")] := by
  refine ⟨fun input rem caps h => ⟨fun hmem => ?_, fun hmem => ?_⟩, by decide, by decide, by decide⟩
  · unfold capability_data
    rw [h]
    dsimp only
    rw [if_pos hmem]
  · unfold capability_data
    rw [h]
    dsimp only
    rw [if_neg hmem]

/-- Instantiation of the general part of `capability_data_baseline` at a
complete list missing the baseline token. -/
theorem capability_data_baseline_witness :
    capability_data (str "CAPABILITY FOO\r\n") = .error :=
  (capability_data_baseline.1 (str "CAPABILITY FOO\r\n") (str "\r\n")
      [Capability.Other (str "FOO")] (by decide)).2 (by decide)

-- ----- C2: capability classification of quota tokens -----

/-- C2: the capability parser's post-hoc classification covers only the
seven base variants, so the quota capability tokens — which the spec's
vocabulary and the comment above `capa_quota_res` (rfc9208.rs) place among
the closed variants — fall through to `Other` with original casing, and
`capa_quota_res`, the recognizer that would produce `QuotaRes`, is never
invoked by `capability`.  The last two conjuncts record the parts of the
claim the code does satisfy (the AUTH= form first, case-folded matching of
the base variants). -/
theorem capability_quota_tokens_fall_to_other :
    capability (str "QUOTA ") = .done (str " ") (Capability.Other (str "QUOTA"))
  ∧ capability (str "QUOTASET ") = .done (str " ") (Capability.Other (str "QUOTASET"))
  ∧ capability (str "QUOTA=RES-STORAGE ")
      = .done (str " ") (Capability.Other (str "QUOTA=RES-STORAGE"))
  ∧ capa_quota_res (str "QUOTA=RES-STORAGE ")
      = .done (str " ") (Capability.QuotaRes Resource.Storage)
  ∧ capability (str "AUTH=PLAIN ") = .done (str " ") (Capability.Auth (str "PLAIN"))
  ∧ capability (str "sTaRtTlS ") = .done (str " ") Capability.StartTls
  ∧ capability (str "Idle ") = .done (str " ") Capability.Idle := by
  decide

-- ----- C3: unknown response-code parameter text -----

/-- C3: the catch-all arm of `resp_text_code` consumes the optional
trailing parameter with the predicate `is_text_char && != DQUOTE`, which
admits the closing bracket `]` (a protocol text character): on `X a]b"`
the unknown code's parameter is `a]b`, containing `]` — contradicting the
source's own grammar comment `atom [SP 1*<any TEXT-CHAR except "]">]`. -/
theorem resp_text_code_other_swallows_bracket :
    resp_text_code (str "X a]b\"")
      = .done (str "\"") (Code.Other (str "X") (some (str "a]b")))
  ∧ (']' ∈ str "a]b")
  ∧ is_text_char ']' = true
  ∧ is_text_char '"' = true := by
  decide

-- ----- lemmas about tags and error propagation -----

theorem pmap_error_of {p : Parser α} {f : α → β} {input} (h : p input = .error) :
    pmap p f input = .error := by
  unfold pmap
  rw [h]

theorem pbind_error_of {p : Parser α} {f : α → Parser β} {input} (h : p input = .error) :
    pbind p f input = .error := by
  unfold pbind
  rw [h]

theorem pseq_error_of {p : Parser α} {q : Parser β} {input} (h : p input = .error) :
    pseq p q input = .error := by
  unfold pseq
  exact pbind_error_of h

theorem palt_of_first_error {p q : Parser α} {input} (h : p input = .error) :
    palt p q input = q input := by
  unfold palt
  rw [h]

theorem palt_first_done {p q : Parser α} {input rem v} (h : p input = .done rem v) :
    palt p q input = .done rem v := by
  unfold palt
  rw [h]

theorem ptag_cons_cons (t c : Char) (ts cs : List Char) :
    ptag (t :: ts) (c :: cs) = if c = t then ptag ts cs else .error := rfl

theorem ptag_head_ne {t c : Char} {ts cs : List Char} (h : c ≠ t) :
    ptag (t :: ts) (c :: cs) = .error := by
  rw [ptag_cons_cons, if_neg h]

theorem ptag_single_done {a : Char} {input rem : Inp} {u : Unit} :
    ptag [a] input = .done rem u → input = a :: rem := by
  intro h
  cases input with
  | nil => simp [ptag] at h
  | cons c cs =>
    rw [ptag_cons_cons] at h
    by_cases hc : c = a
    · rw [if_pos hc] at h
      have he : ptag ([] : List Char) cs = .done cs () := rfl
      rw [he] at h
      injection h with h1 h2
      rw [hc, h1]
    · rw [if_neg hc] at h
      simp at h

theorem ptagNoCase_cons_cons (t c : Char) (ts cs : List Char) :
    ptagNoCase (t :: ts) (c :: cs) =
      if lowerChar c = lowerChar t then
        match ptagNoCase ts cs with
        | .done rem raw => .done rem (c :: raw)
        | .incomplete => .incomplete
        | .error => .error
      else .error := rfl

theorem ptagNoCase_head_ne {t c : Char} {ts cs : List Char}
    (h : lowerChar c ≠ lowerChar t) : ptagNoCase (t :: ts) (c :: cs) = .error := by
  rw [ptagNoCase_cons_cons, if_neg h]

theorem ptagNoCase_two_ne {t1 t2 c1 c2 : Char} {ts cs : List Char}
    (h1 : lowerChar c1 = lowerChar t1) (h2 : lowerChar c2 ≠ lowerChar t2) :
    ptagNoCase (t1 :: t2 :: ts) (c1 :: c2 :: cs) = .error := by
  rw [ptagNoCase_cons_cons, if_pos h1, ptagNoCase_cons_cons, if_neg h2]

theorem ptagNoCase_done : ∀ {t input rem raw : List Char},
    ptagNoCase t input = .done rem raw →
    input = raw ++ rem ∧ raw.map lowerChar = t.map lowerChar := by
  intro t
  induction t with
  | nil =>
    intro input rem raw h
    have he : ptagNoCase ([] : List Char) input = .done input [] := rfl
    rw [he] at h
    injection h with h1 h2
    rw [← h1, ← h2]
    simp
  | cons t ts ih =>
    intro input rem raw h
    cases input with
    | nil => simp [ptagNoCase] at h
    | cons c cs =>
      rw [ptagNoCase_cons_cons] at h
      by_cases hc : lowerChar c = lowerChar t
      · rw [if_pos hc] at h
        cases hr : ptagNoCase ts cs with
        | done rem2 raw2 =>
          rw [hr] at h
          injection h with h1 h2
          obtain ⟨ihe, ihm⟩ := ih hr
          subst h1
          rw [← h2]
          constructor
          · rw [ihe]
            simp
          · simp [ihm, hc]
        | incomplete =>
          rw [hr] at h
          simp at h
        | error =>
          rw [hr] at h
          simp at h
      · rw [if_neg hc] at h
        simp at h

theorem ptakeWhile1_done_head {f : Char → Bool} {input rem v} :
    ptakeWhile1 f input = .done rem v → ∃ c cs, input = c :: cs ∧ f c = true := by
  intro h
  cases input with
  | nil => simp [ptakeWhile1] at h
  | cons c cs =>
    refine ⟨c, cs, rfl, ?_⟩
    by_cases hc : f c = true
    · exact hc
    · exfalso
      have hc' : f c = false := by
        revert hc
        cases f c <;> simp
      unfold ptakeWhile1 at h
      simp [List.dropWhile_cons, List.takeWhile_cons, hc'] at h

-- ----- C7 / C9: the two BYE paths and the dispatcher -----

/-- On an input whose first two characters case-fold to `b`, `y` the
OK/NO/BAD keyword alternation fails, so `resp_cond_state` errors. -/
theorem resp_cond_state_error_of_bye {c1 c2 c3 : Char} {k : Inp}
    (h1 : lowerChar c1 = 'b') (h2 : lowerChar c2 = 'y') :
    resp_cond_state (c1 :: c2 :: c3 :: k) = .error := by
  have hOK : ptagNoCase (str "OK") (c1 :: c2 :: c3 :: k) = .error := by
    apply ptagNoCase_head_ne
    rw [h1]
    decide
  have hNO : ptagNoCase (str "NO") (c1 :: c2 :: c3 :: k) = .error := by
    apply ptagNoCase_head_ne
    rw [h1]
    decide
  have hBAD : ptagNoCase (str "BAD") (c1 :: c2 :: c3 :: k) = .error := by
    apply ptagNoCase_two_ne
    · rw [h1]
      decide
    · rw [h2]
      decide
  unfold resp_cond_state
  apply pmap_error_of
  apply pseq_error_of
  rw [palt_of_first_error hOK, palt_of_first_error hNO]
  exact hBAD

/-- The untagged-data path recognizes every line the dedicated fatal path
recognizes, producing the same BYE status and the same remainder: the
OK/NO/BAD arm fails on a BYE keyword and the `resp_cond_bye` arm is tried
before any data alternative. -/
theorem response_data_of_fatal {input rem : Inp} {st : Status} :
    response_fatal input = .done rem st →
    response_data input = .done rem (Response.Status st) := by
  intro h
  unfold response_fatal at h
  rw [pmap_done] at h
  obtain ⟨a, hp, hv⟩ := h
  obtain ⟨u1, u2, bt, u4⟩ := a
  obtain ⟨code, t⟩ := bt
  simp only at hv
  obtain ⟨m1, h1, h2⟩ := pseq_done_parts hp
  obtain ⟨m2, h3, h4⟩ := pseq_done_parts h2
  obtain ⟨m3, h5, h6⟩ := pseq_done_parts h4
  -- learn the shape of m2 from resp_cond_bye's success
  have h5' := h5
  unfold resp_cond_bye at h5'
  rw [pmap_done] at h5'
  obtain ⟨b, hbp, hbv⟩ := h5'
  obtain ⟨raw, u5, rt⟩ := b
  obtain ⟨m4, hb1, hb2⟩ := pseq_done_parts hbp
  obtain ⟨hm2eq, hlow⟩ := ptagNoCase_done hb1
  have hbye : (str "BYE").map lowerChar = ['b', 'y', 'e'] := by decide
  rw [hbye] at hlow
  have hlen : raw.length = 3 := by
    have := congrArg List.length hlow
    simpa using this
  obtain ⟨c1, c2, c3, rfl⟩ : ∃ c1 c2 c3, raw = [c1, c2, c3] := by
    match raw, hlen with
    | [c1, c2, c3], _ => exact ⟨c1, c2, c3, rfl⟩
  simp only [List.map_cons, List.map_nil] at hlow
  have hc1 : lowerChar c1 = 'b' := by
    have := congrArg (fun l => l.headI) hlow
    simpa using this
  have hc2 : lowerChar c2 = 'y' := by
    have := congrArg (fun l => l.tail.headI) hlow
    simpa using this
  have hm2 : m2 = c1 :: c2 :: c3 :: m4 := by
    rw [hm2eq]
    rfl
  -- assemble the untagged-data parse
  have hstate : resp_cond_state m2 = .error := by
    rw [hm2]
    exact resp_cond_state_error_of_bye hc1 hc2
  unfold response_data
  rw [pmap_done]
  refine ⟨(u1, u2, Response.Status (Status.Bye code t), u4), ?_, by rw [hv]⟩
  rw [pseq_done]
  refine ⟨m1, u1, _, h1, ?_, rfl⟩
  rw [pseq_done]
  refine ⟨m2, u2, _, h3, ?_, rfl⟩
  rw [pseq_done]
  refine ⟨m3, Response.Status (Status.Bye code t), u4, ?_, h6, rfl⟩
  rw [palt_of_first_error (pmap_error_of hstate)]
  apply palt_first_done
  rw [pmap_done]
  exact ⟨(code, t), h5, rfl⟩

/-- C7: on every input on which both succeed, the untagged-BYE arm of the
general data path (`response_data`) and the dedicated fatal path
(`response_fatal`) produce the same `Status.Bye` value (same optional code,
same text) and the same remainder. -/
theorem bye_paths_identical :
    ∀ input rem r rem2 st,
      response_data input = .done rem r →
      response_fatal input = .done rem2 st →
      r = Response.Status st ∧ rem = rem2 := by
  intro input rem r rem2 st hd hf
  have h := response_data_of_fatal hf
  rw [hd] at h
  injection h with h1 h2
  exact ⟨h2, h1⟩

/-- Instantiation of `bye_paths_identical` at a concrete fatal line on
which both paths succeed. -/
theorem bye_paths_identical_witness :
    Response.Status (Status.Bye none (str "gone")) = Response.Status (Status.Bye none (str "gone"))
  ∧ (([] : Inp) = []) :=
  bye_paths_identical (str "* BYE gone\r\n") []
    (Response.Status (Status.Bye none (str "gone"))) [] (Status.Bye none (str "gone"))
    (by decide) (by decide)

/-- C9: the top-level dispatcher tries continuation-request syntax, then
untagged-data syntax, then completion-status syntax, in that fixed order,
and returns the result of the first alternative that succeeds: a successful
`continue_req` always wins, a successful `response_data` is returned
unchanged (the continuation alternative necessarily fails on its input),
and a successful `response_done` is returned (as a Status) since both
earlier alternatives cannot mask it. -/
theorem response_dispatch_order :
    (∀ input rem c, continue_req input = .done rem c →
        response input = .done rem (Response.Continuation c))
  ∧ (∀ input rem r, response_data input = .done rem r → response input = .done rem r)
  ∧ (∀ input rem st, response_done input = .done rem st →
        response input = .done rem (Response.Status st)) := by
  refine ⟨?_, ?_, ?_⟩
  · intro input rem c h
    unfold response
    apply palt_first_done
    rw [pmap_done]
    exact ⟨c, h, rfl⟩
  · intro input rem r h
    have hhead : ∃ m, input = '*' :: m := by
      have h' := h
      unfold response_data at h'
      rw [pmap_done] at h'
      obtain ⟨a, hp, -⟩ := h'
      obtain ⟨m1, h1, -⟩ := pseq_done_parts hp
      exact ⟨m1, ptag_single_done h1⟩
    obtain ⟨m, rfl⟩ := hhead
    have hcont : continue_req ('*' :: m) = .error := by
      unfold continue_req
      apply pmap_error_of
      apply pseq_error_of
      exact ptag_head_ne (by decide)
    unfold response
    rw [palt_of_first_error (pmap_error_of hcont)]
    exact palt_first_done h
  · intro input rem st h
    unfold response_done at h
    rw [palt_done] at h
    cases h with
    | inl htag =>
      have hx : ∃ c cs, input = c :: cs ∧ (is_astring_char c && c ≠ '+') = true := by
        have h' := htag
        unfold response_tagged at h'
        rw [pmap_done] at h'
        obtain ⟨a, hp, -⟩ := h'
        obtain ⟨m1, h1, -⟩ := pseq_done_parts hp
        unfold tag_imap at h1
        exact ptakeWhile1_done_head h1
      obtain ⟨c, cs, rfl, hc⟩ := hx
      rw [Bool.and_eq_true, decide_eq_true_eq] at hc
      obtain ⟨hastr, hplus⟩ := hc
      have hstar : c ≠ '*' := by
        intro e
        rw [e] at hastr
        exact absurd hastr (by decide)
      have hcont : continue_req (c :: cs) = .error := by
        unfold continue_req
        apply pmap_error_of
        apply pseq_error_of
        exact ptag_head_ne hplus
      have hdata : response_data (c :: cs) = .error := by
        unfold response_data
        apply pmap_error_of
        apply pseq_error_of
        exact ptag_head_ne hstar
      unfold response
      rw [palt_of_first_error (pmap_error_of hcont), palt_of_first_error hdata]
      rw [pmap_done]
      refine ⟨st, ?_, rfl⟩
      unfold response_done
      exact palt_first_done htag
    | inr hf =>
      obtain ⟨-, hfatal⟩ := hf
      have hdata := response_data_of_fatal hfatal
      have hhead : ∃ m, input = '*' :: m := by
        have h' := hfatal
        unfold response_fatal at h'
        rw [pmap_done] at h'
        obtain ⟨a, hp, -⟩ := h'
        obtain ⟨m1, h1, -⟩ := pseq_done_parts hp
        exact ⟨m1, ptag_single_done h1⟩
      obtain ⟨m, rfl⟩ := hhead
      have hcont : continue_req ('*' :: m) = .error := by
        unfold continue_req
        apply pmap_error_of
        apply pseq_error_of
        exact ptag_head_ne (by decide)
      unfold response
      rw [palt_of_first_error (pmap_error_of hcont)]
      exact palt_first_done hdata

/-- Instantiation of all three parts of `response_dispatch_order` at
concrete lines of each shape. -/
theorem response_dispatch_order_witness :
    response (str "+ OK\r\n") = .done [] (Response.Continuation (Continuation.Basic none (str "OK")))
  ∧ response (str "* BYE gone\r\n") = .done [] (Response.Status (Status.Bye none (str "gone")))
  ∧ response (str "A1 OK done\r\n")
      = .done [] (Response.Status (Status.Ok (some (str "A1")) none (str "done"))) :=
  ⟨response_dispatch_order.1 (str "+ OK\r\n") [] (Continuation.Basic none (str "OK")) (by decide),
   response_dispatch_order.2.1 (str "* BYE gone\r\n") []
     (Response.Status (Status.Bye none (str "gone"))) (by decide),
   response_dispatch_order.2.2 (str "A1 OK done\r\n") []
     (Status.Ok (some (str "A1")) none (str "done")) (by decide)⟩
